import Mathlib

/-!
Verification of the `tr` (trickster) Linux memory-hacking library.

The development shallowly embeds the C++17 header `trickster.hpp` (the
`tr` namespace, version 1.3, together with the earlier `trickster`
namespace iterations where the claims cite them).  C++ machine integers
are modelled as `Nat` with explicit reduction modulo `2 ^ 64` where
`std::size_t` / `std::uintptr_t` wraparound matters; fallible C++ code
(functions that may throw, and `assert`-guarded functions compiled
without `NDEBUG`) is modelled in `Except cpp_error`; the
`process_vm_readv` / `process_vm_writev` syscalls are modelled by an
explicit outcome parameter (`none` for the `-1` error sentinel,
`some k` for a transfer of `k` bytes), with the remote address space
given as a function from addresses to byte values.
-/

/-- The C++ exceptional outcomes relevant to this header:
`std::invalid_argument` and `std::out_of_range` thrown by
`std::stoul` / `std::stol` / `std::stoi` / `std::string::substr`,
and a failed `tr_assert` (an `assert` in a debug build). -/
inductive cpp_error where
  | invalid_argument
  | out_of_range
  | assertion_failure
  deriving Repr, DecidableEq

/-- `std::string::npos`, i.e. `(size_t)(-1)`. -/
def npos : Nat := 2 ^ 64 - 1

/-- `size_t` addition with 64-bit wraparound (e.g. `npos + 1 = 0`). -/
def szAdd (a b : Nat) : Nat := (a + b) % 2 ^ 64

namespace tr

/-- The bytes `process_vm_readv` copies out of the target process when
it transfers `k` bytes starting at `address`: the remote address space
is `mem`, one byte (reduced mod 256) per address. -/
def readv_bytes (mem : Nat → Nat) (address k : Nat) : List Nat :=
  (List.range k).map (fun i => mem (address + i) % 256)

/-- `tr::process_t::read_memory<T>(address, size)` at byte level, for a
type `T` of `tSize` bytes.  The local buffer is value-initialized
(`T buffer {}`, all bytes zero) and `iovec` lengths are `size`; the
syscall outcome is `transferred` (`none` models the `-1` return, after
which the code returns `std::nullopt`; `some k` models a transfer of
`k ≤ size` bytes overwriting the first `k` buffer bytes).  On any
non-error outcome the code returns the buffer, partial or not. -/
def read_memory (tSize : Nat) (mem : Nat → Nat) (address size : Nat)
    (transferred : Option Nat) : Option (List Nat) :=
  match transferred with
  | none => none
  | some k => some (readv_bytes mem address (min k tSize) ++ List.replicate (tSize - k) 0)

/-- `tr::process_t::write_memory<T>(address, data, size)`: `none` models
the `-1` error sentinel (the code returns `std::nullopt`); otherwise the
code returns `result == size`. -/
def write_memory (size : Nat) (transferred : Option Nat) : Option Bool :=
  match transferred with
  | none => none
  | some k => some (k == size)

/-- Little-endian value of a byte list, as assembled in the
`std::uintptr_t` local buffer of `read_memory` on the (x86-64) host. -/
def bytes_le_value : List Nat → Nat
  | [] => 0
  | b :: bs => b % 256 + 256 * bytes_le_value bs

/-- `tr::process_t::get_call_address(address)`: reads
`sizeof(std::uint32_t) = 4` bytes at `address + 0x1` into a
zero-initialized 8-byte `std::uintptr_t`, and on success returns
`value + (address + 0x5)` with `uintptr_t` wraparound.  Note the value
is the *zero-extension* of the 4 read bytes. -/
def get_call_address (mem : Nat → Nat) (address : Nat)
    (transferred : Option Nat) : Option Nat :=
  match read_memory 8 mem ((address + 1) % 2 ^ 64) 4 transferred with
  | none => none
  | some buf => some ((bytes_le_value buf + address + 5) % 2 ^ 64)

end tr

/-- The signed little-endian 32-bit reading of a 4-byte displacement,
as the specification words it ("a little-endian signed 32-bit
displacement").  This is the spec-side definition used to compare the
claimed behaviour with the code's zero-extending behaviour. -/
def spec_signed_disp32 (bytes : List Nat) : Int :=
  let v := tr.bytes_le_value (bytes.take 4)
  if v < 2 ^ 31 then (v : Int) else (v : Int) - 2 ^ 32

/-- A remote address space whose bytes are all `0xFF`: at any address
the 4-byte displacement field reads as `FF FF FF FF`, i.e. `-1` as a
signed 32-bit integer. -/
def ff_mem : Nat → Nat := fun _ => 0xFF

/-- A remote address space holding `E8 00 00 00 00` at `0x1000`. -/
def c9_mem : Nat → Nat := fun a => if a = 0x1000 then 0xE8 else 0

/-- An all-zero remote address space. -/
def zero_mem : Nat → Nat := fun _ => 0

/-- Claim C9 (confirmed): if the 5 bytes stored at address `A` in the
target process are `E8 00 00 00 00` and the underlying 4-byte read
succeeds in full (the syscall transfers all 4 bytes), then
`get_call_address(A)` returns `A + 5`. -/
theorem C9_call_target_e8_zero (mem : Nat → Nat) (A : Nat)
    (hA : A + 5 < 2 ^ 64)
    (hbytes : ∀ i, i < 5 → mem (A + i) = [0xE8, 0, 0, 0, 0].getD i 0) :
    tr.get_call_address mem A (some 4) = some (A + 5) := by
  have h1 : mem (A + 1) = 0 := by simpa using hbytes 1 (by norm_num)
  have h2 : mem (A + 2) = 0 := by simpa using hbytes 2 (by norm_num)
  have h3 : mem (A + 3) = 0 := by simpa using hbytes 3 (by norm_num)
  have h4 : mem (A + 4) = 0 := by simpa using hbytes 4 (by norm_num)
  have hA1 : (A + 1) % 2 ^ 64 = A + 1 := Nat.mod_eq_of_lt (by omega)
  have hrange : List.range 4 = [0, 1, 2, 3] := rfl
  have e1 : A + 1 + 0 = A + 1 := by omega
  have e2 : A + 1 + 1 = A + 2 := by omega
  have e3 : A + 1 + 2 = A + 3 := by omega
  have e4 : A + 1 + 3 = A + 4 := by omega
  have hmin : min 4 8 = 4 := rfl
  have hrep : List.replicate (8 - 4) (0 : Nat) = [0, 0, 0, 0] := rfl
  simp only [tr.get_call_address, tr.read_memory, hA1, hmin, hrep]
  simp only [tr.readv_bytes, hrange, List.map_cons, List.map_nil,
    e1, e2, e3, e4, h1, h2, h3, h4]
  simp only [List.cons_append, List.nil_append, tr.bytes_le_value]
  norm_num
  omega

/-- Witness for C9 at `A = 0x1000` with memory holding `E8 00 00 00 00`
at `0x1000`. -/
theorem C9_call_target_e8_zero_witness :
    tr.get_call_address c9_mem 0x1000 (some 4) = some 0x1005 :=
  C9_call_target_e8_zero c9_mem 0x1000 (by decide) (by decide)

/-- Claim C10 (confirmed): a successful `read_memory<T>(address, n)`
with an explicit size `n < sizeof(T) = tSize` returns a buffer whose
first `n` bytes are the bytes transferred from the target process and
whose remaining `tSize - n` bytes are zero (the local buffer is
value-initialized before the transfer); also, `get_call_address` is the
`tSize = 8`, `size = 4` instance of this read followed by the
little-endian reassembly and wrapping addition. -/
theorem C10_read_zero_fill (tSize n : Nat) (mem : Nat → Nat) (address : Nat)
    (h : n < tSize) :
    tr.read_memory tSize mem address n (some n) =
      some (tr.readv_bytes mem address n ++ List.replicate (tSize - n) 0) ∧
    (tr.readv_bytes mem address n ++ List.replicate (tSize - n) 0).take n =
      tr.readv_bytes mem address n ∧
    (tr.readv_bytes mem address n ++ List.replicate (tSize - n) 0).drop n =
      List.replicate (tSize - n) 0 ∧
    (∀ b ∈ List.replicate (tSize - n) 0, b = 0) ∧
    (tr.readv_bytes mem address n ++ List.replicate (tSize - n) 0).length = tSize ∧
    tr.get_call_address mem address (some 4) =
      Option.map (fun buf => (tr.bytes_le_value buf + address + 5) % 2 ^ 64)
        (tr.read_memory 8 mem ((address + 1) % 2 ^ 64) 4 (some 4)) := by
  have hlen : (tr.readv_bytes mem address n).length = n := by
    simp [tr.readv_bytes]
  refine ⟨?_, ?_, ?_, ?_, ?_, ?_⟩
  · simp [tr.read_memory, Nat.min_eq_left h.le]
  · exact List.take_left' hlen
  · exact List.drop_left' hlen
  · intro b hb; exact List.eq_of_mem_replicate hb
  · simp [hlen]; omega
  · simp [tr.get_call_address, tr.read_memory]

/-- Witness for C10 at `tSize = 8`, `n = 4`, constant memory `7`. -/
theorem C10_read_zero_fill_witness :
    tr.read_memory 8 (fun _ => 7) 0 4 (some 4) =
      some (tr.readv_bytes (fun _ => 7) 0 4 ++ List.replicate (8 - 4) 0) ∧
    (tr.readv_bytes (fun _ => 7) 0 4 ++ List.replicate (8 - 4) 0).take 4 =
      tr.readv_bytes (fun _ => 7) 0 4 ∧
    (tr.readv_bytes (fun _ => 7) 0 4 ++ List.replicate (8 - 4) 0).drop 4 =
      List.replicate (8 - 4) 0 ∧
    (∀ b ∈ List.replicate (8 - 4) 0, b = 0) ∧
    (tr.readv_bytes (fun _ => 7) 0 4 ++ List.replicate (8 - 4) 0).length = 8 ∧
    tr.get_call_address (fun _ => 7) 0 (some 4) =
      Option.map (fun buf => (tr.bytes_le_value buf + 0 + 5) % 2 ^ 64)
        (tr.read_memory 8 (fun _ => 7) ((0 + 1) % 2 ^ 64) 4 (some 4)) :=
  C10_read_zero_fill 8 4 (fun _ => 7) 0 (by decide)

/-- Claim C1 (code bug): the claim says `get_call_address` interprets
the 4 bytes at `A + 1` as a little-endian *signed* 32-bit displacement
`d` and returns `A + 5 + d`.  The code instead zero-extends the 4 bytes
into an 8-byte `std::uintptr_t`, so a negative displacement is
mishandled on a 64-bit host: with bytes `FF FF FF FF` (`d = -1`) at
`A + 1 = 0x1001`, the code returns `0x100001004` while the claimed
result is `A + 5 + d = 0x1004`. -/
theorem C1_call_address_zero_extends :
    tr.get_call_address ff_mem 0x1000 (some 4) = some 0x100001004 ∧
    spec_signed_disp32 (tr.readv_bytes ff_mem 0x1001 4) = -1 ∧
    ((0x1000 : Int) + 5 + spec_signed_disp32 (tr.readv_bytes ff_mem 0x1001 4)) = 0x1004 ∧
    ((0x100001004 : Nat) ≠ 0x1004) := by
  decide

/-- Claim C2, counterexample: the claim says `read_memory` exposes the
transferred-byte count distinctly from success/failure so callers can
detect partial reads.  It does not: a partial transfer of 2 of 4
requested bytes and a full transfer of 4 bytes (over an all-zero remote
space) produce identical return values, so the count is not observable. -/
theorem C2_partial_read_indistinguishable :
    tr.read_memory 4 zero_mem 0 4 (some 2) = tr.read_memory 4 zero_mem 0 4 (some 4) ∧
    (2 : Nat) ≠ 4 := by
  decide

/-- Claim C2 (corrected): `write_memory` does return the full-success
indicator (`bytes transferred == bytes requested`) as an outcome
separate from failure, and the error sentinel is reported as failure
(`std::nullopt`) by both operations, never as a partial result; but
`read_memory` returns the (zero-padded) buffer on every non-error
outcome, exposing no transferred-byte count. -/
theorem C2_write_partial_vs_failure (tSize size k : Nat) (mem : Nat → Nat)
    (address : Nat) :
    tr.write_memory size none = none ∧
    tr.write_memory size (some k) = some (k == size) ∧
    tr.read_memory tSize mem address size none = none ∧
    (tr.read_memory tSize mem address size (some k)).isSome = true :=
  ⟨rfl, rfl, rfl, rfl⟩

/-! ## C++ string primitives

`std::string` is modelled as `List Char` (the sources only handle
8-bit text; `filesystem::path` round-trips its string unchanged here).
Positions and counts are `size_t`, i.e. `Nat` with arithmetic mod
`2 ^ 64` where the code can wrap (`npos + 1`, `npos + 6`). -/

/-- Helper for `find_first_of`: first index `i ≥ pos` with `s[i] = c`,
scanning with a running index, else `npos`. -/
def findCharFrom : List Char → Char → Nat → Nat → Nat
  | [], _, _, _ => npos
  | a :: rest, c, pos, i =>
    if pos ≤ i ∧ a = c then i else findCharFrom rest c pos (i + 1)

/-- `std::string::find_first_of(c)`. -/
def find_first_of (s : List Char) (c : Char) : Nat :=
  findCharFrom s c 0 0

/-- `std::string::find_first_of(c, pos)`. -/
def find_first_of_from (s : List Char) (c : Char) (pos : Nat) : Nat :=
  findCharFrom s c pos 0

/-- Helper for `find_last_of` on a single character: last index with
`s[i] = c`, else `npos`. -/
def findCharLast : List Char → Char → Nat → Nat → Nat
  | [], _, _, acc => acc
  | a :: rest, c, i, acc =>
    findCharLast rest c (i + 1) (if a = c then i else acc)

/-- `std::string::find_last_of("/")` (single-character set). -/
def find_last_of (s : List Char) (c : Char) : Nat :=
  findCharLast s c 0 npos

/-- `std::string::substr(pos, count)`: throws `std::out_of_range` when
`pos > size()`, else yields `min count (size() - pos)` characters from
`pos`. -/
def substr (s : List Char) (pos count : Nat) : Except cpp_error (List Char) :=
  if pos > s.length then .error .out_of_range
  else .ok ((s.drop pos).take (min count (s.length - pos)))

/-- `std::string::erase(0, count)` (also used for the
`path.string().erase(0, idx + 1)` filename truncation). -/
def erase_front (s : List Char) (count : Nat) : List Char :=
  s.drop (min count s.length)

/-- Is `pat` a leading block of `s`? (used by the substring search). -/
def leadBlock : List Char → List Char → Bool
  | [], _ => true
  | _ :: _, [] => false
  | a :: as, b :: bs => a = b && leadBlock as bs

/-- `std::string::find(pat) != npos`: does `s` contain `pat` as a
contiguous run? -/
def containsSub (pat : List Char) : List Char → Bool
  | [] => leadBlock pat []
  | s@(_ :: rest) => leadBlock pat s || containsSub pat rest

/-! ## `std::stoul` / `std::stol` / `std::stoi` -/

/-- Value of a hexadecimal digit character, if any. -/
def hex_val (c : Char) : Option Nat :=
  if '0' ≤ c ∧ c ≤ '9' then some (c.toNat - '0'.toNat)
  else if 'a' ≤ c ∧ c ≤ 'f' then some (c.toNat - 'a'.toNat + 10)
  else if 'A' ≤ c ∧ c ≤ 'F' then some (c.toNat - 'A'.toNat + 10)
  else none

/-- Value of a decimal digit character, if any. -/
def dec_val (c : Char) : Option Nat :=
  if '0' ≤ c ∧ c ≤ '9' then some (c.toNat - '0'.toNat) else none

/-- The leading run of digits of `s`, under a digit-valuation `f`. -/
def digitSpan (f : Char → Option Nat) : List Char → List Nat
  | [] => []
  | c :: rest =>
    match f c with
    | some d => d :: digitSpan f rest
    | none => []

/-- Numeric value of a digit run in base `base`. -/
def digitsValue (base : Nat) (ds : List Nat) : Nat :=
  ds.foldl (fun a d => a * base + d) 0

/-- `isspace` characters skipped by the `strtol` family. -/
def is_space (c : Char) : Bool :=
  c = ' ' || c = '\t' || c = '\n' || c = '\x0b' || c = '\x0c' || c = '\r'

/-- Drop leading whitespace. -/
def skip_ws : List Char → List Char
  | [] => []
  | c :: rest => if is_space c then skip_ws rest else c :: rest

/-- Result of the `strtol`-style scan: sign and digit values. -/
structure numScan where
  neg : Bool
  digits : List Nat

/-- The `strtoul(_, _, 16)` subject-sequence scan: optional whitespace,
optional sign, optional `0x`/`0X` prefix (only when followed by a hex
digit, otherwise just the `0` is consumed as a digit), then the leading
hex digits. -/
def scan_hex (s : List Char) : numScan :=
  let s1 := skip_ws s
  let p :=
    match s1 with
    | '-' :: rest => (true, rest)
    | '+' :: rest => (false, rest)
    | _ => (false, s1)
  let s3 :=
    match p.2 with
    | '0' :: x :: d :: rest =>
      if (x = 'x' ∨ x = 'X') ∧ (hex_val d).isSome then d :: rest else p.2
    | _ => p.2
  ⟨p.1, digitSpan hex_val s3⟩

/-- The `strtol(_, _, 10)` subject-sequence scan (as used by
`std::stoi` on the numeric `/proc` entry names). -/
def scan_dec (s : List Char) : numScan :=
  let s1 := skip_ws s
  let p :=
    match s1 with
    | '-' :: rest => (true, rest)
    | '+' :: rest => (false, rest)
    | _ => (false, s1)
  ⟨p.1, digitSpan dec_val p.2⟩

/-- `std::stoul(s, nullptr, 16)`: `std::invalid_argument` when no digit
is consumed, `std::out_of_range` when the magnitude exceeds
`ULONG_MAX`, otherwise the (sign-wrapped) 64-bit value. -/
def stoul16 (s : List Char) : Except cpp_error Nat :=
  let sc := scan_hex s
  if sc.digits = [] then .error .invalid_argument
  else
    let v := digitsValue 16 sc.digits
    if v ≥ 2 ^ 64 then .error .out_of_range
    else .ok (if sc.neg then (2 ^ 64 - v) % 2 ^ 64 else v)

/-- `std::stol(s, nullptr, 16)`: as `stoul16` but signed with `long`
range checking. -/
def stol16 (s : List Char) : Except cpp_error Int :=
  let sc := scan_hex s
  if sc.digits = [] then .error .invalid_argument
  else
    let v := digitsValue 16 sc.digits
    let i : Int := if sc.neg then -(v : Int) else (v : Int)
    if i < -(2 ^ 63) ∨ i > 2 ^ 63 - 1 then .error .out_of_range
    else .ok i

/-- `std::stoi(s)` (base 10), used on the all-digit `/proc` entry
names. -/
def stoi_dec (s : List Char) : Except cpp_error Int :=
  let sc := scan_dec s
  if sc.digits = [] then .error .invalid_argument
  else
    let v := digitsValue 10 sc.digits
    let i : Int := if sc.neg then -(v : Int) else (v : Int)
    if i < -(2 ^ 31) ∨ i > 2 ^ 31 - 1 then .error .out_of_range
    else .ok i

/-- A `long` value stored into a `std::uint64_t` field. -/
def int_to_u64 (i : Int) : Nat := (i % 2 ^ 64).toNat

namespace tr

/-- `tr::memory_region_t`.  In the C++ struct a region is declared with
`memory_region_t region;`: the numeric fields are all assigned on every
parse path, `path`/`filename` are default-constructed empty, but
`special` is written only on the `.so`/`[` branch — an unassigned
`special` is modelled as `none`. -/
structure memory_region_t where
  start : Nat
  end_ : Nat
  readable : Bool
  writable : Bool
  executable : Bool
  shared : Bool
  offset : Nat
  device_major : Nat
  device_minor : Nat
  inode : Nat
  path : List Char
  special : Option Bool
  filename : List Char
  deriving Repr, DecidableEq

/-- The loop body of `tr::_internal::map_memory_regions`: parse one
line of `/proc/<pid>/maps` into a `memory_region_t`, statement by
statement.  Each `std::stoul`/`std::stol`/`substr` call may throw;
`size_t` cursor arithmetic wraps (`npos + 1 = 0`, `npos + 6 = 5`).
This is char-identical to the v1.1 loop body in
`trickster::internal::map_memory_regions`. -/
def parse_line (line : List Char) : Except cpp_error memory_region_t := do
  -- cursor_position = line.find_first_of('-');
  let cursor1 := find_first_of line '-'
  -- region.start = std::stoul(line.substr(0, cursor_position), nullptr, 16);
  let startStr ← substr line 0 cursor1
  let start ← stoul16 startStr
  -- previous_cursor_position = cursor_position;
  -- cursor_position = line.find_first_of(' ');
  let cursor2 := find_first_of line ' '
  -- region.end = std::stoul(line.substr(previous + 1, cursor), nullptr, 16);
  let endStr ← substr line (szAdd cursor1 1) cursor2
  let end_ ← stoul16 endStr
  -- the four permission characters
  let rStr ← substr line (szAdd cursor2 1) 1
  let wStr ← substr line (szAdd cursor2 2) 1
  let xStr ← substr line (szAdd cursor2 3) 1
  let sStr ← substr line (szAdd cursor2 4) 1
  -- cursor_position += 6; previous_cursor_position = cursor_position;
  let cursor3 := szAdd cursor2 6
  -- region.offset = std::stoul(line.substr(previous, 8), nullptr, 16);
  let offStr ← substr line cursor3 8
  let offset ← stoul16 offStr
  -- cursor_position = line.find_first_of(' ', previous); cursor_position++;
  let cursor4 := szAdd (find_first_of_from line ' ' cursor3) 1
  -- region.device_major = std::stol(line.substr(cursor, 2), nullptr, 16);
  let majStr ← substr line cursor4 2
  let device_major ← stol16 majStr
  -- cursor_position += 3;
  let cursor5 := szAdd cursor4 3
  let minStr ← substr line cursor5 2
  let device_minor ← stol16 minStr
  -- cursor_position += 1; previous_cursor_position = cursor_position;
  let cursor6 := szAdd cursor5 1
  -- region.inode = std::stol(line.substr(cursor + 2, 9), nullptr, 16);
  let inoStr ← substr line (szAdd cursor6 2) 9
  let inode ← stol16 inoStr
  -- the `.so` / `[` classification and path/filename extraction
  let so := containsSub ".so".toList line
  let br := containsSub "[".toList line
  let (special, path, filename) :=
    if so || br then
      let erased := erase_front line 73
      let fname := erase_front erased (szAdd (find_last_of erased '/') 1)
      (some br, erased, fname)
    else (none, [], [])
  .ok {
    start := start
    end_ := end_
    readable := rStr = "r".toList
    writable := wStr = "w".toList
    executable := xStr = "x".toList
    shared := sStr ≠ "p".toList
    offset := offset
    device_major := int_to_u64 device_major
    device_minor := int_to_u64 device_minor
    inode := int_to_u64 inode
    path := path
    special := special
    filename := filename
  }

/-- The `while (std::getline(...))` loop of
`tr::_internal::map_memory_regions`, over the descriptor lines of a
process that exists and whose maps file opened: each line is parsed and
appended; an exception thrown while parsing any line aborts the whole
loop (and discards the partial vector). -/
def map_memory_regions : List (List Char) → Except cpp_error (List memory_region_t)
  | [] => .ok []
  | l :: rest => do
    let r ← parse_line l
    let rs ← map_memory_regions rest
    .ok (r :: rs)

end tr

/-! ## Module enumeration -/

/-- C++ `std::string::operator<` (lexicographic by character code), as
used by the `std::sort` in `get_modules`.  Decided via `Char.toNat`
comparison after an equality test. -/
def strLt : List Char → List Char → Bool
  | _, [] => false
  | [], _ :: _ => true
  | a :: as, b :: bs => if a = b then strLt as bs else decide (a.toNat < b.toNat)

/-- `!strLt b a`, i.e. `a ≤ b`, the sortedness relation `std::sort`
establishes with comparator `operator<`. -/
def strLe (a b : List Char) : Prop := strLt b a = false

instance : DecidableRel strLe := fun _ _ => instDecidableEqBool _ _

/-- `std::unique` + `erase` on a list: drop every element equal to the
most recently kept element. -/
def uniqFrom (x : List Char) : List (List Char) → List (List Char)
  | [] => []
  | y :: rest => if x = y then uniqFrom x rest else y :: uniqFrom y rest

/-- `std::unique(begin, end)` followed by `erase` — adjacent
deduplication keeping the first element of each run. -/
def uniqAdj : List (List Char) → List (List Char)
  | [] => []
  | x :: rest => x :: uniqFrom x rest

namespace tr

/-- The `.so` pattern searched for in filenames. -/
def so_pat : List Char := ".so".toList

/-- `tr::utils::get_modules(regions)`: collect `filename` of every
region whose filename contains `.so` (the `std::move` in the loop binds
a `const` member, so it silently copies and the input is unchanged),
sort with `operator<`, then erase adjacent duplicates.  `std::sort` is
modelled by insertion sort: the sort-then-unique composite is
insensitive to which correct sort is used, since equal strings are
indistinguishable. -/
def get_modules (regions : List memory_region_t) : List (List Char) :=
  uniqAdj (List.insertionSort strLe
    ((regions.map memory_region_t.filename).filter (fun f => containsSub so_pat f)))

end tr

/-! ## Concrete descriptor lines for the parser claims -/

/-- First line of the specification's end-to-end scenario. -/
def c4_line1 : List Char :=
  "00400000-00401000 r-xp 00000000 08:01 123456  /lib/libexample.so".toList

/-- Second line of the specification's end-to-end scenario. -/
def c4_line2 : List Char :=
  "7fff00000000-7fff00021000 rw-p 00000000 00:00 0  [stack]".toList

/-- A descriptor line truncated in the middle of its offset field —
shorter than the fixed-width layout the parser assumes. -/
def c3_short_line : List Char := "00400000-00401000 r-xp 000000".toList

/-- A descriptor line whose start-address field is not hexadecimal. -/
def c3_bad_hex_line : List Char :=
  "zz400000-00401000 r-xp 00000000 08:01 123456".toList

/-- A descriptor line with permission field `rwxs`. -/
def c8_line_rwxs : List Char :=
  "00400000-00401000 rwxs 00000000 08:01 123456  /lib/libexample.so".toList

/-- A descriptor line with permission field `r--p`. -/
def c8_line_r__p : List Char :=
  "00400000-00401000 r--p 00000000 08:01 123456  /lib/libexample.so".toList

/-- Claim C8 (confirmed): a line whose 4-character permission field is
`rwxs` parses to a region with `readable`, `writable`, `executable`,
`shared` all true; with `r--p`, only `readable` is true. -/
theorem C8_permission_decode :
    (tr.parse_line c8_line_rwxs).toOption.map
        (fun r => (r.readable, r.writable, r.executable, r.shared)) =
      some (true, true, true, true) ∧
    (tr.parse_line c8_line_r__p).toOption.map
        (fun r => (r.readable, r.writable, r.executable, r.shared)) =
      some (true, false, false, false) := by
  decide

/-- Claim C4, counterexample: on the specification's own two synthetic
lines the parser does produce two regions, but — because the path is
obtained by erasing the first 73 characters of the line and both lines
are shorter than 73 characters — both filenames are empty, not
`"libexample.so"`, and `get_modules` on the pair returns `[]`, not
`["libexample.so"]`. -/
theorem C4_spec_lines_empty_filenames :
    (tr.map_memory_regions [c4_line1, c4_line2]).toOption.map
        (List.map tr.memory_region_t.filename) = some [[], []] ∧
    (tr.map_memory_regions [c4_line1, c4_line2]).toOption.map tr.get_modules =
      some [] ∧
    ([] : List Char) ≠ "libexample.so".toList := by
  decide

/-- Claim C4 (corrected): parsing the two synthetic lines yields exactly
two regions whose permission flags and `special` markers are as claimed
(`r-xp`/`special = false` then `rw-p`/`special = true`), but both
`filename` fields are empty (the 73-character prefix erasure consumes
the whole of these short lines) and hence `get_modules` returns `[]`. -/
theorem C4_spec_lines_regions :
    (tr.map_memory_regions [c4_line1, c4_line2]).toOption.map
        (List.map (fun r : tr.memory_region_t =>
          (r.readable, r.writable, r.executable, r.shared, r.special, r.filename))) =
      some [(true, false, true, false, some false, []),
            (true, true, false, false, some true, [])] ∧
    (tr.map_memory_regions [c4_line1, c4_line2]).toOption.map tr.get_modules =
      some [] :=
  ⟨rfl, rfl⟩

/-- Claim C3, counterexample: a line truncated in the middle of its
offset field — shorter than the expected fixed-width layout — does not
abort the parse: the `size_t` wraparound of `npos + 1` sends the device
cursor back to position 0, every remaining fixed-offset read lands on
parseable text, and the line yields a (garbage) region, after which
parsing continues. -/
theorem C3_short_line_not_aborting :
    (tr.map_memory_regions [c3_short_line]).toOption.map List.length = some 1 ∧
    (tr.map_memory_regions [c3_short_line, c3_short_line]).toOption.map
      List.length = some 2 := by
  decide

/-- Claim C3 (corrected): a line whose hexadecimal start field fails
numeric conversion does throw (`std::invalid_argument` from
`std::stoul`), aborting the whole parse whatever follows, and no
partial region list is returned from the internal parser in that case —
but, per the counterexample, not every short line aborts, and the
`tr::process_t::map_memory_regions` wrapper is `noexcept`, so there the
exception terminates the program instead of being surfaced. -/
theorem C3_malformed_hex_aborts (rest : List (List Char)) :
    tr.map_memory_regions (c3_bad_hex_line :: rest) =
      .error cpp_error.invalid_argument := by
  have h : tr.parse_line c3_bad_hex_line = .error cpp_error.invalid_argument := rfl
  show (do
      let r ← tr.parse_line c3_bad_hex_line
      let rs ← tr.map_memory_regions rest
      Except.ok (r :: rs)) = Except.error cpp_error.invalid_argument
  rw [h]
  rfl

/-! ## Process resolution and the process handle -/

/-- One entry of the `/proc/` directory iteration: `name` is the entry
name after the 6-character `"/proc/"` prefix erasure, `dir` is
`is_directory()`, and `comm` is the first line of the entry's `comm`
file when that file opens (`none` when it does not). -/
structure proc_entry where
  name : List Char
  dir : Bool
  comm : Option (List Char)
  deriving Repr, DecidableEq

/-- `only_digits` / `onlyDigits`: `std::all_of(..., ::isdigit)`.
True on the empty string. -/
def only_digits (s : List Char) : Bool := s.all Char.isDigit

/-- The shared `/proc/` scan of every `get_pid_by_name` iteration: skip
non-directories, skip non-numeric names, skip entries whose `comm`
cannot be opened, and return `std::stoi(name)` for the first entry
whose `comm` line equals the requested name.  `stoi` may throw
(`std::out_of_range`) on an absurdly long numeric entry name, hence the
`Except`. -/
def pid_scan (table : List proc_entry) (process_name : List Char) :
    Except cpp_error (Option Int) :=
  match table with
  | [] => .ok none
  | e :: rest =>
    if e.dir = true ∧ only_digits e.name = true ∧ e.comm = some process_name then
      (stoi_dec e.name).map some
    else pid_scan rest process_name

namespace tr

/-- `tr::_internal::get_pid_by_name` (v1.3): begins with
`tr_assert(!process_name.empty(), ...)` — in a debug build an empty
name is an assertion failure, not a `std::nullopt` return — then scans
the process table. -/
def get_pid_by_name (table : List proc_entry) (process_name : List Char) :
    Except cpp_error (Option Int) :=
  if process_name = [] then .error .assertion_failure
  else pid_scan table process_name

/-- `tr::process_t::invalid`. -/
def process_t_invalid : Int := -1

/-- `tr::process_t`: the identity the constructor stores. -/
structure process_t where
  m_id : Int
  m_name : List Char
  deriving Repr, DecidableEq

/-- The `tr::process_t` constructor:
`m_id(_internal::get_pid_by_name(process_name).value_or(invalid))`.
Delegating to the v1.3 resolver, it inherits the empty-name assertion. -/
def process_t.construct (table : List proc_entry) (process_name : List Char) :
    Except cpp_error process_t :=
  (get_pid_by_name table process_name).map
    (fun o => ⟨o.getD process_t_invalid, process_name⟩)

/-- `tr::process_t::is_valid()`: `m_id != invalid`. -/
def process_t.is_valid (p : process_t) : Bool := p.m_id != process_t_invalid

end tr

namespace trickster

/-- `trickster::utils::getProcessIdByName` (v1.0) =
`trickster::utils::get_pid_by_name` (v1.1) =
`trickster::internal::get_pid_by_name` (the v1.1 variant of
`src/unnamed/part_000`): an empty name returns `std::nullopt`
immediately, before any scan of `/proc/`. -/
def getProcessIdByName (table : List proc_entry) (process_name : List Char) :
    Except cpp_error (Option Int) :=
  if process_name = [] then .ok none
  else pid_scan table process_name

/-- The `trickster::Process` constructor of `src/unnamed/part_000`
(v1.1): `m_id(internal::get_pid_by_name(process_name).value_or(-1))` —
total, no assertion. -/
def Process.construct (table : List proc_entry) (process_name : List Char) :
    Except cpp_error tr.process_t :=
  (getProcessIdByName table process_name).map
    (fun o => ⟨o.getD (-1), process_name⟩)

end trickster

/-- No entry of the table matches `name` in the scan's sense. -/
def no_match (table : List proc_entry) (name : List Char) : Prop :=
  ∀ e ∈ table, ¬(e.dir = true ∧ only_digits e.name = true ∧ e.comm = some name)

instance (table : List proc_entry) (name : List Char) :
    Decidable (no_match table name) :=
  inferInstanceAs (Decidable (∀ e ∈ table, ¬_))

/-- A scan over a table with no matching entry returns `ok none`. -/
theorem pid_scan_miss (table : List proc_entry) (name : List Char)
    (h : no_match table name) : pid_scan table name = .ok none := by
  induction table with
  | nil => rfl
  | cons e rest ih =>
    have he := h e (List.mem_cons_self e rest)
    rw [pid_scan, if_neg he]
    exact ih (fun x hx => h x (List.mem_cons_of_mem e hx))

/-- A concrete process table for the lookup witnesses. -/
def c5_table : List proc_entry :=
  [⟨"1".toList, true, some "systemd".toList⟩,
   ⟨"abc".toList, true, some "bash".toList⟩,
   ⟨"7".toList, false, some "bash".toList⟩,
   ⟨"42".toList, true, none⟩]

/-- Claim C5, counterexample: the v1.3 resolver does not yield the
absent value on an empty name — `tr_assert(!process_name.empty(), ...)`
fails instead (debug build), so resolution of `""` raises rather than
returning a miss. -/
theorem C5_empty_name_asserts :
    tr.get_pid_by_name c5_table [] = .error cpp_error.assertion_failure ∧
    tr.get_pid_by_name c5_table [] ≠ .ok none := by
  refine ⟨rfl, ?_⟩
  intro h
  exact Except.noConfusion h

/-- Claim C5 (corrected): only the earlier `trickster` resolvers return
the absent value immediately on an empty name; the v1.3 `tr` resolver
fails its assertion there.  For a non-empty name matching no live
process both return the absent value (`ok none`) without raising — a
miss is an ordinary absent-value return. -/
theorem C5_resolver_miss (table : List proc_entry) (name : List Char)
    (hne : name ≠ []) (hmiss : no_match table name) :
    tr.get_pid_by_name table name = .ok none ∧
    trickster.getProcessIdByName table name = .ok none ∧
    trickster.getProcessIdByName table [] = .ok none := by
  refine ⟨?_, ?_, rfl⟩
  · rw [tr.get_pid_by_name, if_neg hne]; exact pid_scan_miss table name hmiss
  · rw [trickster.getProcessIdByName, if_neg hne]; exact pid_scan_miss table name hmiss

/-- Witness for C5: the name `"zsh"` matches nothing in `c5_table`
(the only `comm` entries are `"systemd"` and `"bash"`, the latter once
under a non-directory entry and once under a non-numeric name). -/
theorem C5_resolver_miss_witness :
    tr.get_pid_by_name c5_table "zsh".toList = .ok none ∧
    trickster.getProcessIdByName c5_table "zsh".toList = .ok none ∧
    trickster.getProcessIdByName c5_table [] = .ok none :=
  C5_resolver_miss c5_table "zsh".toList (by decide) (by decide)

/-- Claim C6, counterexample: constructing a `tr::process_t` from an
empty name is not failure-free — the constructor invokes the v1.3
resolver, whose assertion fails (debug build) before any identifier is
stored. -/
theorem C6_construct_empty_name_asserts :
    tr.process_t.construct c5_table [] = .error cpp_error.assertion_failure ∧
    (∀ p : tr.process_t, tr.process_t.construct c5_table [] ≠ .ok p) := by
  refine ⟨rfl, ?_⟩
  intro p h
  exact Except.noConfusion h

/-- Claim C6 (corrected): for a non-empty name that resolves to no
process, construction completes without raising, stores the sentinel
`-1`, and `is_valid()` is then false; in general `is_valid()` is false
exactly when the stored identifier equals the sentinel.  (The v1.1
`trickster::Process` of `part_000` also stores `-1` on a miss, and is
additionally total on the empty name.) -/
theorem C6_construct_miss_invalid (table : List proc_entry) (name : List Char)
    (hne : name ≠ []) (hmiss : no_match table name) :
    tr.process_t.construct table name = .ok ⟨-1, name⟩ ∧
    tr.process_t.is_valid ⟨-1, name⟩ = false ∧
    (∀ p : tr.process_t, p.is_valid = false ↔ p.m_id = -1) ∧
    trickster.Process.construct table name = .ok ⟨-1, name⟩ ∧
    trickster.Process.construct table [] = .ok ⟨-1, []⟩ := by
  have h1 : tr.get_pid_by_name table name = .ok none := by
    rw [tr.get_pid_by_name, if_neg hne]; exact pid_scan_miss table name hmiss
  have h2 : trickster.getProcessIdByName table name = .ok none := by
    rw [trickster.getProcessIdByName, if_neg hne]; exact pid_scan_miss table name hmiss
  refine ⟨?_, rfl, ?_, ?_, rfl⟩
  · rw [tr.process_t.construct, h1]; rfl
  · intro p
    constructor
    · intro h
      by_contra hne'
      simp [tr.process_t.is_valid, tr.process_t_invalid, hne'] at h
    · intro h
      simp [tr.process_t.is_valid, tr.process_t_invalid, h]
  · rw [trickster.Process.construct, h2]; rfl

/-- Witness for C6 with the concrete table and the unmatched name
`"zsh"`. -/
theorem C6_construct_miss_invalid_witness :
    tr.process_t.construct c5_table "zsh".toList = .ok ⟨-1, "zsh".toList⟩ ∧
    tr.process_t.is_valid ⟨-1, "zsh".toList⟩ = false ∧
    (∀ p : tr.process_t, p.is_valid = false ↔ p.m_id = -1) ∧
    trickster.Process.construct c5_table "zsh".toList = .ok ⟨-1, "zsh".toList⟩ ∧
    trickster.Process.construct c5_table [] = .ok ⟨-1, []⟩ :=
  C6_construct_miss_invalid c5_table "zsh".toList (by decide) (by decide)

/-! ## Order facts for `strLt` (the `std::string` comparator) -/

/-- `strLt` as a relation. -/
def strLtP (a b : List Char) : Prop := strLt a b = true

theorem char_toNat_inj {a b : Char} (h : a.toNat = b.toNat) : a = b :=
  Char.eq_of_val_eq (UInt32.eq_of_val_eq (Fin.ext h))

theorem strLt_irrefl (a : List Char) : strLt a a = false := by
  induction a with
  | nil => rfl
  | cons x xs ih => simp [strLt, ih]

theorem strLt_asymm (a b : List Char) (h : strLt a b = true) :
    strLt b a = false := by
  induction a generalizing b with
  | nil =>
    cases b with
    | nil => simp [strLt] at h
    | cons y ys => rfl
  | cons x xs ih =>
    cases b with
    | nil => simp [strLt] at h
    | cons y ys =>
      by_cases hxy : x = y
      · subst hxy
        simp only [strLt, if_pos rfl] at h ⊢
        exact ih ys h
      · simp only [strLt, if_neg hxy] at h
        have hne : y ≠ x := fun hyx => hxy hyx.symm
        simp only [strLt, if_neg hne]
        simp only [decide_eq_true_eq] at h
        simp only [decide_eq_false_iff_not]
        omega

theorem strLt_trans (a b c : List Char) (hab : strLt a b = true)
    (hbc : strLt b c = true) : strLt a c = true := by
  induction a generalizing b c with
  | nil =>
    cases c with
    | nil => cases b with
      | nil => simp [strLt] at hab
      | cons y ys => simp [strLt] at hbc
    | cons z zs => rfl
  | cons x xs ih =>
    cases b with
    | nil => simp [strLt] at hab
    | cons y ys =>
      cases c with
      | nil => simp [strLt] at hbc
      | cons z zs =>
        by_cases hxy : x = y <;> by_cases hyz : y = z
        · subst hxy; subst hyz
          simp only [strLt, if_pos rfl] at hab hbc ⊢
          exact ih ys zs hab hbc
        · subst hxy
          simp only [strLt, if_neg hyz, decide_eq_true_eq] at hbc
          simp only [strLt, if_neg hyz, decide_eq_true_eq]
          exact hbc
        · subst hyz
          simp only [strLt, if_neg hxy, decide_eq_true_eq] at hab
          simp only [strLt, if_neg hxy, decide_eq_true_eq]
          exact hab
        · simp only [strLt, if_neg hxy, decide_eq_true_eq] at hab
          simp only [strLt, if_neg hyz, decide_eq_true_eq] at hbc
          have hlt : x.toNat < z.toNat := by omega
          have hxz : x ≠ z := by
            intro h
            have := congrArg Char.toNat h
            omega
          simp only [strLt, if_neg hxz, decide_eq_true_eq]
          exact hlt

theorem strLt_connex (a b : List Char) (hab : strLt a b = false)
    (hba : strLt b a = false) : a = b := by
  induction a generalizing b with
  | nil =>
    cases b with
    | nil => rfl
    | cons y ys => simp [strLt] at hab
  | cons x xs ih =>
    cases b with
    | nil => simp [strLt] at hba
    | cons y ys =>
      by_cases hxy : x = y
      · subst hxy
        simp only [strLt, if_pos rfl] at hab hba
        rw [ih ys hab hba]
      · have hne : y ≠ x := fun hyx => hxy hyx.symm
        simp only [strLt, if_neg hxy, decide_eq_false_iff_not] at hab
        simp only [strLt, if_neg hne, decide_eq_false_iff_not] at hba
        exact absurd (char_toNat_inj (by omega)) hxy

theorem strLt_of_le_ne (a b : List Char) (h : strLt b a = false)
    (hne : a ≠ b) : strLt a b = true := by
  by_contra hf
  exact hne (strLt_connex a b (Bool.eq_false_iff.mpr hf) h)

instance : IsTotal (List Char) strLe :=
  ⟨fun a b => by
    by_cases h : strLt a b = true
    · exact Or.inl (strLt_asymm a b h)
    · exact Or.inr (Bool.eq_false_iff.mpr h)⟩

instance : IsTrans (List Char) strLe :=
  ⟨fun a b c hab hbc => by
    unfold strLe at hab hbc ⊢
    by_contra hf
    have hca : strLt c a = true := Bool.not_eq_false _ |>.mp hf
    by_cases hbc' : strLt b c = true
    · by_cases hab' : strLt a b = true
      · have hac : strLt a c = true := strLt_trans a b c hab' hbc'
        have h := strLt_asymm a c hac
        rw [h] at hca
        exact Bool.noConfusion hca
      · have h : a = b := strLt_connex a b (Bool.eq_false_iff.mpr hab') hab
        rw [h] at hca
        rw [hca] at hbc
        exact Bool.noConfusion hbc
    · have h : b = c := strLt_connex b c (Bool.eq_false_iff.mpr hbc') hbc
      rw [← h] at hca
      rw [hca] at hab
      exact Bool.noConfusion hab⟩

instance : IsTrans (List Char) strLtP :=
  ⟨fun a b c hab hbc => strLt_trans a b c hab hbc⟩

/-! ## `std::unique` facts -/

theorem mem_uniqFrom_subset (l : List (List Char)) :
    ∀ x a, a ∈ uniqFrom x l → a ∈ l := by
  induction l with
  | nil => intro x a h; simp [uniqFrom] at h
  | cons y rest ih =>
    intro x a h
    by_cases hxy : x = y
    · rw [uniqFrom, if_pos hxy] at h
      exact List.mem_cons_of_mem y (ih x a h)
    · rw [uniqFrom, if_neg hxy] at h
      rcases List.mem_cons.mp h with rfl | h'
      · exact List.mem_cons_self a rest
      · exact List.mem_cons_of_mem y (ih y a h')

theorem mem_uniqFrom_or (l : List (List Char)) :
    ∀ x a, a ∈ l → a = x ∨ a ∈ uniqFrom x l := by
  induction l with
  | nil => intro x a h; simp at h
  | cons y rest ih =>
    intro x a h
    by_cases hxy : x = y
    · rw [uniqFrom, if_pos hxy]
      rcases List.mem_cons.mp h with rfl | h'
      · exact Or.inl hxy.symm
      · exact ih x a h'
    · rw [uniqFrom, if_neg hxy]
      rcases List.mem_cons.mp h with rfl | h'
      · exact Or.inr (List.mem_cons_self a _)
      · rcases ih y a h' with rfl | h''
        · exact Or.inr (List.mem_cons_self a _)
        · exact Or.inr (List.mem_cons_of_mem y h'')

theorem mem_uniqAdj (l : List (List Char)) (a : List Char) :
    a ∈ uniqAdj l ↔ a ∈ l := by
  cases l with
  | nil => rfl
  | cons x rest =>
    rw [uniqAdj]
    constructor
    · intro h
      rcases List.mem_cons.mp h with rfl | h'
      · exact List.mem_cons_self a rest
      · exact List.mem_cons_of_mem x (mem_uniqFrom_subset rest x a h')
    · intro h
      rcases List.mem_cons.mp h with rfl | h'
      · exact List.mem_cons_self a _
      · rcases mem_uniqFrom_or rest x a h' with rfl | h''
        · exact List.mem_cons_self a _
        · exact List.mem_cons_of_mem x h''

theorem chainLt_uniqFrom (l : List (List Char)) :
    ∀ x, List.Chain' strLe (x :: l) → List.Chain' strLtP (x :: uniqFrom x l) := by
  induction l with
  | nil => intro x _; simp [uniqFrom]
  | cons y rest ih =>
    intro x h
    obtain ⟨hxy, hrest⟩ := List.chain'_cons.mp h
    by_cases hxyq : x = y
    · rw [uniqFrom, if_pos hxyq]
      exact ih x (hxyq ▸ hrest)
    · rw [uniqFrom, if_neg hxyq]
      exact List.chain'_cons.mpr ⟨strLt_of_le_ne x y hxy hxyq, ih y hrest⟩

/-- Claim C7 (confirmed): for every region sequence, `get_modules`
returns exactly the `filename` fields (final path components, not full
paths — the parser stores only the component after the last `/`) of the
regions whose filename contains `.so`, strictly sorted with all
duplicates removed: the output is pairwise strictly increasing under
the `std::string` comparator, duplicate-free, and its members are
precisely the `.so`-containing filenames of the input, regardless of
input order or repetitions.  The embedding is a pure function of its
argument: no I/O, no mutation (in the C++, the loop's `std::move`
binds a `const` member and therefore copies). -/
theorem C7_get_modules_sorted_nodup_mem (regions : List tr.memory_region_t) :
    (tr.get_modules regions).Pairwise strLtP ∧
    (tr.get_modules regions).Nodup ∧
    ∀ x, x ∈ tr.get_modules regions ↔
      ((∃ r ∈ regions, r.filename = x) ∧ containsSub tr.so_pat x = true) := by
  have hchainle :
      List.Chain' strLe (List.insertionSort strLe
        ((regions.map tr.memory_region_t.filename).filter
          (fun f => containsSub tr.so_pat f))) :=
    (List.sorted_insertionSort strLe _).chain'
  have hchainlt : List.Chain' strLtP (tr.get_modules regions) := by
    rw [tr.get_modules]
    cases hs : List.insertionSort strLe
        ((regions.map tr.memory_region_t.filename).filter
          (fun f => containsSub tr.so_pat f)) with
    | nil => simp [uniqAdj]
    | cons a l =>
      rw [uniqAdj]
      exact chainLt_uniqFrom l a (hs ▸ hchainle)
  have hpair : (tr.get_modules regions).Pairwise strLtP :=
    List.chain'_iff_pairwise.mp hchainlt
  refine ⟨hpair, ?_, ?_⟩
  · exact hpair.imp (fun {a b} h => by
      intro hab
      rw [hab] at h
      rw [strLtP, strLt_irrefl] at h
      exact Bool.noConfusion h)
  · intro x
    rw [tr.get_modules, mem_uniqAdj,
      (List.perm_insertionSort strLe _).mem_iff, List.mem_filter,
      List.mem_map]
